import Mathlib

/-!
Shallow embedding of the task-tracker program (`src/main.py`) and proofs of
the specification claims about it.

The program stores tasks as Python dicts inside a Python list.  We model the
Python values that can occur in a record field with `PyVal`, a record (dict)
with `PyDict` (one optional field per key the program ever reads or writes;
a key that is absent from the dict is `none`), and a parsed JSON array
element with `Item` (a dict or any non-dict value).  Exceptions that the
Python code can raise while operating on these values are modelled with
`PyExc` and the result type `PyResult`.
-/

namespace TaskTracker

/-- A Python exception kind relevant to this program. -/
inductive PyExc where
  | typeError
  | attributeError
  | keyError
deriving DecidableEq, Repr

/-- Result of running a piece of Python code: a value, or an uncaught
exception propagating to the caller. -/
inductive PyResult (α : Type) where
  | ok (a : α)
  | raised (e : PyExc)
deriving DecidableEq, Repr

/-- A Python value that can sit in a field of a task record. -/
inductive PyVal where
  | str (s : String)
  | int (n : Int)
  | bool (b : Bool)
  | null
deriving DecidableEq, Repr

/-- A Python dict as the program uses it: only the keys the program reads or
writes are modelled; `none` means the key is absent from the dict. -/
structure PyDict where
  task : Option PyVal := none
  done : Option PyVal := none
  id : Option PyVal := none
  description : Option PyVal := none
  status : Option PyVal := none
  createdAt : Option PyVal := none
  updatedAt : Option PyVal := none
deriving DecidableEq, Repr

/-- One element of the parsed JSON array: a dict, or some non-dict value
(`isinstance(item, dict)` fails on the latter). -/
inductive Item where
  | dict (d : PyDict)
  | nondict (v : PyVal)
deriving DecidableEq, Repr

/-- The dict elements of a parsed JSON array, in order. -/
def dictsOf (data : List Item) : List PyDict :=
  data.filterMap fun item =>
    match item with
    | .dict d => some d
    | .nondict _ => none

/-- Python whitespace for `str.strip()` (ASCII part). -/
def pyIsSpace (c : Char) : Bool :=
  c = ' ' || c = '\t' || c = '\n' || c = '\r' || c = '\x0b' || c = '\x0c'

/-- Python `s.strip()` on a string. -/
def pyStripStr (s : String) : String :=
  ⟨((s.data.dropWhile pyIsSpace).reverse.dropWhile pyIsSpace).reverse⟩

/-- Python `s.lower()` on one character (ASCII). -/
def pyLowerChar (c : Char) : Char :=
  if 'A' ≤ c && c ≤ 'Z' then Char.ofNat (c.toNat + 32) else c

/-- Python `s.lower()` on a string. -/
def pyLower (s : String) : String := ⟨s.data.map pyLowerChar⟩

/-- Python `v.strip()` on an arbitrary value: raises `AttributeError` unless
the value is a string. -/
def pyStrip (v : PyVal) : PyResult String :=
  match v with
  | .str s => .ok (pyStripStr s)
  | _ => .raised .attributeError

/-- Python truthiness of a value (`if item.get("done")`); `none` is the
`None` returned by `dict.get` on a missing key. -/
def pyTruthy (v : Option PyVal) : Bool :=
  match v with
  | some (.str s) => !(s = "")
  | some (.int n) => !(n = 0)
  | some (.bool b) => b
  | some .null => false
  | none => false

/-- Python `==` between a field value and an `int` (`t.get("id") == task_id`).
`True == 1` and `False == 0` hold in Python because `bool` is an `int`
subclass; `None` and strings never equal an `int`. -/
def pyEqInt (v : Option PyVal) (m : Int) : Bool :=
  match v with
  | some (.int n) => n = m
  | some (.bool b) => (if b then (1 : Int) else 0) = m
  | _ => false

/-- Python `==` between a field value and a string
(`t.get("status") == filter_status`). -/
def pyEqStr (v : Option PyVal) (s : String) : Bool :=
  match v with
  | some (.str t) => t = s
  | _ => false

/-- `VALID_STATUSES = ["todo", "in-progress", "done"]` (module constant). -/
def VALID_STATUSES : List String := ["todo", "in-progress", "done"]

/-- The state of the backing file as `load_tasks` observes it: absent,
present but not parseable as JSON, parseable to a non-list value, or
parseable to a list of elements. -/
inductive FileState where
  | absent
  | unparseable
  | nonList
  | list (data : List Item)
deriving DecidableEq, Repr

end TaskTracker

namespace TaskTracker

/-- `isinstance(item, dict) and "task" in item and "done" in item`:
the legacy-record shape test of `load_tasks` (line 37). -/
def isLegacyDict (d : PyDict) : Bool := d.task.isSome && d.done.isSome

/-- `isinstance(item, dict) and "id" in item and "description" in item`:
the current-format shape test of `load_tasks` (line 49). -/
def isCurrentDict (d : PyDict) : Bool := d.id.isSome && d.description.isSome

/-- The legacy-record test on an array element (non-dicts never pass). -/
def isLegacyItem (item : Item) : Bool :=
  match item with
  | .dict d => isLegacyDict d
  | .nondict _ => false

/-- Classification and conversion of one array element by `load_tasks`
(`main.py` lines 36-52).  Returns `none` when the element is dropped,
`some (true, d)` when it is a legacy record converted to a fresh dict
(`migrated` is set), `some (false, d)` when it is passed through unchanged.
The converted dict gets `id = None` (renumbered after the loop) and
`createdAt`/`updatedAt` default to `now` when absent on the legacy record.
`item.get("task", "").strip()` raises `AttributeError` when the value under
`"task"` is not a string. -/
def migrateItem (now : String) (item : Item) : PyResult (Option (Bool × PyDict)) :=
  match item with
  | .nondict _ => .ok none
  | .dict d =>
    if isLegacyDict d then
      match pyStrip (d.task.getD (.str "")) with
      | .raised e => .raised e
      | .ok desc =>
        let status := if pyTruthy d.done then "done" else "todo"
        .ok (some (true,
          { id := some .null
            description := some (.str desc)
            status := some (.str status)
            createdAt := some (d.createdAt.getD (.str now))
            updatedAt := some (d.updatedAt.getD (.str now)) }))
    else if isCurrentDict d then
      .ok (some (false, d))
    else
      .ok none

/-- The migration loop of `load_tasks` (lines 33-52): folds `migrateItem`
over the array, accumulating the `migrated` flag and `new_list`. -/
def migrateList (now : String) : List Item → PyResult (Bool × List PyDict)
  | [] => .ok (false, [])
  | item :: rest =>
    match migrateItem now item with
    | .raised e => .raised e
    | .ok step =>
      match migrateList now rest with
      | .raised e => .raised e
      | .ok (m, l) =>
        match step with
        | none => .ok (m, l)
        | some (b, d) => .ok (b || m, d :: l)

/-- `for idx, itm in enumerate(new_list, start=1): itm["id"] = idx`
(lines 55-56), generalised over the starting index. -/
def renumberFrom (k : Int) : List PyDict → List PyDict
  | [] => []
  | t :: ts => { t with id := some (.int k) } :: renumberFrom (k + 1) ts

/-- The ID reassignment performed when a migration happened (start=1). -/
def renumber (l : List PyDict) : List PyDict := renumberFrom 1 l

/-- What `load_tasks` produces: the returned collection, whether a migration
was detected (and reported), and the collection passed to `save_tasks`
during the load (`none` when no save happened). -/
structure LoadOut where
  migrated : Bool
  tasks : List PyDict
  saved : Option (List PyDict)
deriving DecidableEq, Repr

/-- `load_tasks()` (lines 11-60) as a function of the backing-file state and
the current timestamp: absent file, unparseable content and non-list content
all yield an empty collection; a list is run through the migration pass, and
if anything was migrated the whole list is renumbered from 1 and saved. -/
def load_tasks (now : String) (fs : FileState) : PyResult LoadOut :=
  match fs with
  | .absent => .ok ⟨false, [], none⟩
  | .unparseable => .ok ⟨false, [], none⟩
  | .nonList => .ok ⟨false, [], none⟩
  | .list data =>
    match migrateList now data with
    | .raised e => .raised e
    | .ok (migrated, new_list) =>
      if migrated then
        let final := renumber new_list
        .ok ⟨true, final, some final⟩
      else
        .ok ⟨false, new_list, none⟩

/-- The value Python's `max` sees for `task.get("id", 0)`: the `int` itself,
a `bool` as its int value, `0` for a missing key, and `none` when the value
cannot take part in integer `max`/`+ 1` (the `except` branch fires). -/
def idAsInt (v : Option PyVal) : Option Int :=
  match v with
  | none => some 0
  | some (.int n) => some n
  | some (.bool b) => some (if b then 1 else 0)
  | some _ => none

/-- The sequence of values the `max` generator in `get_next_id` yields, or
`none` when one of them cannot take part in integer comparison. -/
def idNums : List PyDict → Option (List Int)
  | [] => some []
  | t :: ts =>
    match idAsInt t.id, idNums ts with
    | some x, some xs => some (x :: xs)
    | _, _ => none

/-- `get_next_id(tasks)` (lines 85-95): 1 on an empty collection, else
`max(task.get("id", 0) for task in tasks) + 1`; any exception inside the
`try` (e.g. a non-numeric id value) yields 1. -/
def get_next_id (tasks : List PyDict) : Int :=
  match tasks with
  | [] => 1
  | _ :: _ =>
    match idNums tasks with
    | some (x :: xs) => xs.foldl max x + 1
    | _ => 1

/-- `find_task_by_id(tasks, task_id)` (lines 97-104): first record whose
`"id"` value equals the id, or `None`. -/
def find_task_by_id (tasks : List PyDict) (task_id : Int) : Option PyDict :=
  tasks.find? fun t => pyEqInt t.id task_id

/-- `print_task(task)` (lines 106-113) reads five keys with `task[...]`;
it raises `KeyError` unless all five are present. -/
def print_task_ok (t : PyDict) : Bool :=
  t.id.isSome && t.description.isSome && t.status.isSome &&
    t.createdAt.isSome && t.updatedAt.isSome

/-- Replace the first element satisfying `p` by its image under `f`; models
the in-place mutation of the single dict found by `find_task_by_id`. -/
def setFirst (p : PyDict → Bool) (f : PyDict → PyDict) : List PyDict → List PyDict
  | [] => []
  | t :: ts => if p t then f t :: ts else t :: setFirst p f ts

/-- Remove the first element satisfying `p`; models `tasks.remove(task)` for
the dict found by `find_task_by_id` (list `remove` deletes the first element
`==`-equal to it, which is the found dict itself). -/
def removeFirst (p : PyDict → Bool) : List PyDict → List PyDict
  | [] => []
  | t :: ts => if p t then ts else t :: removeFirst p ts

end TaskTracker

namespace TaskTracker

/-- Outcome of `show_tasks` when no exception is raised. -/
inductive ShowResult where
  | invalidFilter
  | noTasks
  | shownAll
deriving DecidableEq, Repr

/-- `show_tasks(tasks, filter_status)` (lines 153-168).  A non-empty filter
string is stripped and lowered, checked against `VALID_STATUSES`, and then
`filtered = {t for t in tasks if t.get("status") == filter_status}` builds a
Python *set* of dicts: adding the first matching dict to the set raises
`TypeError` (dicts are unhashable), so the comprehension raises whenever at
least one task matches and yields the empty set otherwise.  An empty or
`None` filter takes the show-all branch, which never touches a set. -/
def show_tasks (tasks : List PyDict) (filter_status : Option String) : PyResult ShowResult :=
  match filter_status with
  | some fs0 =>
    if fs0 ≠ "" then
      let fs := pyLower (pyStripStr fs0)
      if VALID_STATUSES.contains fs then
        if (tasks.filter fun t => pyEqStr t.status fs).isEmpty then
          .ok .noTasks
        else
          .raised .typeError
      else
        .ok .invalidFilter
    else if tasks.isEmpty then .ok .noTasks else .ok .shownAll
  | none => if tasks.isEmpty then .ok .noTasks else .ok .shownAll

/-- The record mutation performed by a successful `update_task` (lines
191-192): set `description`, refresh `updatedAt`. -/
def updUpd (desc now : String) (u : PyDict) : PyDict :=
  { u with description := some (.str desc), updatedAt := some (.str now) }

/-- The record mutation performed by a successful `mark_task` (lines
245-246): set `status`, refresh `updatedAt`. -/
def markUpd (status now : String) (u : PyDict) : PyDict :=
  { u with status := some (.str status), updatedAt := some (.str now) }

/-- Outcome of `update_task` when no exception is raised. -/
inductive UpdateResult where
  | notFound
  | cancelled
  | updated
deriving DecidableEq, Repr

/-- `update_task(tasks, ...)` (lines 170-193) with the two console inputs
(task id, raw new description) as parameters: find the record by id
(`NotFound` message and no change when absent), `print_task` it (raising
`KeyError` when a key is missing), strip the input, cancel without change
when the stripped input is empty, else set `description` and `updatedAt`
on the found record. -/
def update_task (tasks : List PyDict) (task_id : Int) (raw : String) (now : String) :
    PyResult (UpdateResult × List PyDict) :=
  match find_task_by_id tasks task_id with
  | none => .ok (.notFound, tasks)
  | some t =>
    if print_task_ok t then
      let new_desc := pyStripStr raw
      if new_desc = "" then
        .ok (.cancelled, tasks)
      else
        .ok (.updated, setFirst (fun u => pyEqInt u.id task_id)
          (updUpd new_desc now) tasks)
    else
      .raised .keyError

/-- Outcome of `mark_task` when no exception is raised. -/
inductive MarkResult where
  | notFound
  | invalidStatus
  | changed
deriving DecidableEq, Repr

/-- `mark_task(tasks, status)` (lines 220-247) with the task id and the
status value (the passed-in argument, or the prompted input after
`.strip().lower()`) as parameters: find the record (`NotFound` message and
no change when absent), reject a status outside `VALID_STATUSES` without
touching anything, else read `task["status"]` (raising `KeyError` when the
key is missing) and set `status` and `updatedAt` on the found record. -/
def mark_task (tasks : List PyDict) (task_id : Int) (status : String) (now : String) :
    PyResult (MarkResult × List PyDict) :=
  match find_task_by_id tasks task_id with
  | none => .ok (.notFound, tasks)
  | some t =>
    if VALID_STATUSES.contains status then
      if t.status.isSome then
        .ok (.changed, setFirst (fun u => pyEqInt u.id task_id)
          (markUpd status now) tasks)
      else
        .raised .keyError
    else
      .ok (.invalidStatus, tasks)

/-- Outcome of `delete_task` when no exception is raised. -/
inductive DeleteResult where
  | notFound
  | deleted
deriving DecidableEq, Repr

/-- `delete_task(tasks)` (lines 195-217) with the task id as parameter and
the yes/no confirmation assumed answered yes (the core deletion is
unconditional once confirmed): find the record (`NotFound` message and no
change when absent), `print_task` it (raising `KeyError` when a key is
missing), then `tasks.remove(task)` removes the first `==`-equal dict. -/
def delete_task (tasks : List PyDict) (task_id : Int) : PyResult (DeleteResult × List PyDict) :=
  match find_task_by_id tasks task_id with
  | none => .ok (.notFound, tasks)
  | some t =>
    if print_task_ok t then
      .ok (.deleted, removeFirst (fun u => u = t) tasks)
    else
      .raised .keyError

/-- The body of one iteration of the add loop in `add_task` (lines 135-150)
with the raw console description as parameter: strip it, skip the append
when empty, else append a fresh task with `id = get_next_id(tasks)`, status
`todo` and both timestamps `now`. -/
def add_task_one (tasks : List PyDict) (raw : String) (now : String) : List PyDict :=
  let desc := pyStripStr raw
  if desc = "" then
    tasks
  else
    tasks ++ [{ id := some (.int (get_next_id tasks))
                description := some (.str desc)
                status := some (.str "todo")
                createdAt := some (.str now)
                updatedAt := some (.str now) }]

end TaskTracker

namespace TaskTracker

/-- Whether one array element survives a migration pass in which nothing
was legacy: it must pass the current-format test (the legacy test, checked
first, already failed). -/
def currentOnlyF (item : Item) : Option PyDict :=
  match item with
  | .dict d => if !isLegacyDict d && isCurrentDict d then some d else none
  | .nondict _ => none

/-- The dicts that survive a migration pass in which nothing was legacy:
exactly the elements passing the current-format test (and failing the
legacy test, which is checked first). -/
def currentOnly (data : List Item) : List PyDict :=
  data.filterMap currentOnlyF

/-- The `"id"` values present in a collection, in order (records with no
`"id"` key contribute nothing). -/
def idsOf (l : List PyDict) : List PyVal := l.filterMap fun t => t.id

/-- All present `"id"` values of the collection are pairwise distinct. -/
def NodupIds (l : List PyDict) : Prop := (idsOf l).Nodup

instance (l : List PyDict) : Decidable (NodupIds l) :=
  inferInstanceAs (Decidable (idsOf l).Nodup)

/-- Whether a field value is present and a string. -/
def isStrVal (v : Option PyVal) : Bool :=
  match v with
  | some (.str _) => true
  | _ => false

/-- A fully-populated current-format task record. -/
def mkTask (n : Int) (desc status ts : String) : PyDict :=
  { id := some (.int n)
    description := some (.str desc)
    status := some (.str status)
    createdAt := some (.str ts)
    updatedAt := some (.str ts) }

/-- Fixture: a task with id 1 and status `done`. -/
def taskDoneW : PyDict := mkTask 1 "write spec" "done" "2026-01-01T00:00:00"

/-- Fixture: a task with id 2 and status `todo`. -/
def taskTodoW : PyDict := mkTask 2 "water plants" "todo" "2026-01-01T00:00:00"

/-- Fixture: a task with id 3 and status `todo`. -/
def taskId3W : PyDict := mkTask 3 "ship release" "todo" "2026-01-02T00:00:00"

/-- Fixture: a current-format record with no `"id"` key. -/
def taskNoIdW : PyDict :=
  { description := some (.str "orphan")
    status := some (.str "todo") }

/-- Fixture: a collection whose ids are 1 and 3 (gap from a deletion). -/
def gapTasksW : List PyDict :=
  [mkTask 1 "draft spec" "todo" "2026-01-01T00:00:00", taskId3W]

/-- Fixture: a legacy record `{"task": " buy milk ", "done": true}`. -/
def legacyDictW : PyDict :=
  { task := some (.str " buy milk "), done := some (.bool true) }

/-- Fixture: a legacy record whose `"task"` value is the integer 1. -/
def badLegacyDictW : PyDict :=
  { task := some (.int 1), done := some (.bool true) }

/-- Fixture: a mixed file - one legacy record followed by a current-format
record with id 7. -/
def mixedDataW : List Item :=
  [Item.dict legacyDictW, Item.dict (mkTask 7 "old entry" "todo" "2025-12-31T00:00:00")]

/-- Fixture: what loading `mixedDataW` produces - the legacy record is
converted, then both records are renumbered 1, 2 and the result is saved. -/
def mixedLoadOutW : LoadOut :=
  { migrated := true
    tasks := [{ id := some (.int 1)
                description := some (.str "buy milk")
                status := some (.str "done")
                createdAt := some (.str "T")
                updatedAt := some (.str "T") },
              { mkTask 7 "old entry" "todo" "2025-12-31T00:00:00" with id := some (.int 2) }]
    saved := some [{ id := some (.int 1)
                     description := some (.str "buy milk")
                     status := some (.str "done")
                     createdAt := some (.str "T")
                     updatedAt := some (.str "T") },
                   { mkTask 7 "old entry" "todo" "2025-12-31T00:00:00" with id := some (.int 2) }] }

end TaskTracker

namespace TaskTracker

lemma foldl_max_le {n : Int} {xs : List Int} :
    ∀ {x : Int}, (n ≤ x ∨ n ∈ xs) → n ≤ xs.foldl max x := by
  induction xs with
  | nil =>
    intro x h
    rcases h with h | h
    · simpa using h
    · simp at h
  | cons y ys ih =>
    intro x h
    simp only [List.foldl_cons]
    apply ih
    rcases h with h | h
    · exact Or.inl (le_trans h (le_max_left x y))
    · rcases List.mem_cons.mp h with h | h
      · exact Or.inl (h ▸ le_max_right x y)
      · exact Or.inr h

lemma setFirst_length (p : PyDict → Bool) (f : PyDict → PyDict) :
    ∀ l : List PyDict, (setFirst p f l).length = l.length := by
  intro l
  induction l with
  | nil => rfl
  | cons t ts ih =>
    simp only [setFirst]
    by_cases h : p t <;> simp [h, ih]

lemma setFirst_get?_or (p : PyDict → Bool) (f : PyDict → PyDict) :
    ∀ (l : List PyDict) (i : Nat),
      (setFirst p f l).get? i = l.get? i ∨
        (setFirst p f l).get? i = (l.get? i).map f := by
  intro l
  induction l with
  | nil => intro i; exact Or.inl rfl
  | cons t ts ih =>
    intro i
    by_cases hp : p t
    · simp only [setFirst, if_pos hp]
      cases i with
      | zero => exact Or.inr rfl
      | succ j => exact Or.inl rfl
    · simp only [setFirst, if_neg hp]
      cases i with
      | zero => exact Or.inl rfl
      | succ j =>
        simpa using ih j

lemma setFirst_idsOf (p : PyDict → Bool) (f : PyDict → PyDict)
    (hf : ∀ t, (f t).id = t.id) :
    ∀ l : List PyDict, idsOf (setFirst p f l) = idsOf l := by
  intro l
  induction l with
  | nil => rfl
  | cons t ts ih =>
    simp only [setFirst]
    by_cases h : p t
    · simp only [if_pos h, idsOf, List.filterMap_cons, hf t]
    · simp only [if_neg h, idsOf, List.filterMap_cons]
      cases t.id <;> simp [idsOf] at ih ⊢ <;> exact ih

lemma removeFirst_sublist (p : PyDict → Bool) :
    ∀ l : List PyDict, (removeFirst p l).Sublist l := by
  intro l
  induction l with
  | nil => exact List.Sublist.refl []
  | cons t ts ih =>
    simp only [removeFirst]
    by_cases h : p t
    · simp only [if_pos h]
      exact List.sublist_cons_self t ts
    · simp only [if_neg h]
      exact List.Sublist.cons₂ t ih

end TaskTracker

namespace TaskTracker

lemma migrateItem_ok_inv {now : String} {item : Item} {step : Option (Bool × PyDict)}
    (h : migrateItem now item = .ok step) :
    (isLegacyItem item = true → ∃ d, step = some (true, d)) ∧
    (isLegacyItem item = false →
      step = none ∨ ∃ d, step = some (false, d) ∧ item = .dict d) ∧
    (∀ b d, step = some (b, d) →
      b = isLegacyItem item ∧ d.id.isSome = true ∧ d.description.isSome = true ∧
        isLegacyDict d = false) ∧
    (step = none → currentOnlyF item = none) ∧
    (∀ d, step = some (false, d) → currentOnlyF item = some d) := by
  cases item with
  | nondict v =>
    simp only [migrateItem] at h
    cases h
    refine ⟨fun hL => by simp [isLegacyItem] at hL, fun _ => Or.inl rfl, ?_, fun _ => rfl, ?_⟩
    · intro b d hbd
      cases hbd
    · intro d hbd
      cases hbd
  | dict d0 =>
    by_cases hL : isLegacyDict d0
    · simp only [migrateItem, if_pos hL] at h
      rcases hs : pyStrip (d0.task.getD (.str "")) with desc | e
      · rw [hs] at h
        cases h
        refine ⟨fun _ => ⟨_, rfl⟩, fun hC => by simp [isLegacyItem, hL] at hC, ?_,
          fun hn => Option.noConfusion hn, fun d hbd => by simp at hbd⟩
        intro b d hbd
        cases hbd
        refine ⟨by simp [isLegacyItem, hL], rfl, rfl, ?_⟩
        simp [isLegacyDict]
      · rw [hs] at h
        cases h
    · simp only [migrateItem, if_neg hL] at h
      by_cases hC : isCurrentDict d0
      · simp only [if_pos hC] at h
        cases h
        refine ⟨fun hLt => by simp [isLegacyItem] at hLt; exact absurd hLt hL, ?_, ?_,
          fun hn => Option.noConfusion hn, ?_⟩
        · intro _
          exact Or.inr ⟨d0, rfl, rfl⟩
        · intro b d hbd
          cases hbd
          refine ⟨by simp [isLegacyItem]; exact (Bool.not_eq_true _).mp hL, ?_, ?_, ?_⟩
          · exact (Bool.and_eq_true _ _).mp hC |>.1
          · exact (Bool.and_eq_true _ _).mp hC |>.2
          · exact (Bool.not_eq_true _).mp hL
        · intro d hbd
          cases hbd
          simp [currentOnlyF, hL, hC]
      · simp only [if_neg hC] at h
        cases h
        refine ⟨fun hLt => by simp [isLegacyItem] at hLt; exact absurd hLt hL,
          fun _ => Or.inl rfl, ?_, ?_, ?_⟩
        · intro b d hbd
          cases hbd
        · intro _
          simp [currentOnlyF, hL, hC]
        · intro d hbd
          cases hbd

end TaskTracker

namespace TaskTracker

lemma migrateList_ok_inv {now : String} :
    ∀ {data : List Item} {m : Bool} {l : List PyDict},
      migrateList now data = .ok (m, l) →
      m = data.any isLegacyItem ∧
      (∀ t ∈ l, t.id.isSome = true ∧ t.description.isSome = true ∧
        isLegacyDict t = false) ∧
      (m = false → l = currentOnly data) := by
  intro data
  induction data with
  | nil =>
    intro m l h
    simp only [migrateList] at h
    cases h
    exact ⟨rfl, by simp, fun _ => rfl⟩
  | cons item rest ih =>
    intro m l h
    simp only [migrateList] at h
    rcases hI : migrateItem now item with step | e <;> rw [hI] at h
    case raised => cases h
    rcases hR : migrateList now rest with p | e <;> rw [hR] at h
    case raised => cases h
    obtain ⟨m', l'⟩ := p
    obtain ⟨hrest_flag, hrest_wf, hrest_cur⟩ := ih hR
    obtain ⟨_, _, hsome, hnoneF, hfalseF⟩ := migrateItem_ok_inv hI
    cases step with
    | none =>
      cases h
      have hLf : isLegacyItem item = false := by
        rcases hlit : isLegacyItem item with _ | _
        · rfl
        · obtain ⟨d, hd⟩ := (migrateItem_ok_inv hI).1 hlit
          cases hd
      refine ⟨by simp [hLf, hrest_flag], hrest_wf, ?_⟩
      intro hm
      rw [hrest_cur hm]
      simp only [currentOnly, List.filterMap_cons, hnoneF rfl]
    | some bd =>
      obtain ⟨b, d⟩ := bd
      cases h
      obtain ⟨hbval, hid, hdesc, hnleg⟩ := hsome b d rfl
      constructor
      · simp [List.any_cons, ← hbval, hrest_flag]
      constructor
      · intro t ht
        rcases List.mem_cons.mp ht with ht | ht
        · subst ht
          exact ⟨hid, hdesc, hnleg⟩
        · exact hrest_wf t ht
      · intro hm
        have hb : b = false := by
          cases b
          · rfl
          · simp at hm
        have hm' : m' = false := by
          cases m'
          · rfl
          · rw [hb] at hm
            simp at hm
        rw [hrest_cur hm']
        simp only [currentOnly, List.filterMap_cons, hfalseF d (by rw [hb])]

end TaskTracker

namespace TaskTracker

lemma currentOnly_sublist : ∀ data : List Item, (currentOnly data).Sublist (dictsOf data) := by
  intro data
  induction data with
  | nil => exact List.Sublist.refl []
  | cons item rest ih =>
    cases item with
    | dict d =>
      simp only [currentOnly, dictsOf, List.filterMap_cons] at ih ⊢
      rcases hF : currentOnlyF (.dict d) with _ | d'
      · exact ih.trans (List.sublist_cons_self d _)
      · have hd : d' = d := by
          simp only [currentOnlyF] at hF
          rcases hc : (!isLegacyDict d && isCurrentDict d) with _ | _ <;> rw [hc] at hF
          · cases hF
          · cases hF
            rfl
        subst hd
        exact List.Sublist.cons₂ d' ih
    | nondict v =>
      simp only [currentOnly, dictsOf, List.filterMap_cons] at ih ⊢
      exact ih

lemma currentOnly_mem_dict {data : List Item} {t : PyDict}
    (h : t ∈ currentOnly data) : Item.dict t ∈ data := by
  obtain ⟨item, hitem, hf⟩ := List.mem_filterMap.mp h
  cases item with
  | dict d =>
    simp only [currentOnlyF] at hf
    rcases hc : (!isLegacyDict d && isCurrentDict d) with _ | _ <;> rw [hc] at hf
    · cases hf
    · cases hf
      exact hitem
  | nondict v => cases hf

lemma renumberFrom_get? :
    ∀ (l : List PyDict) (k : Int) (i : Nat) (t : PyDict),
      (renumberFrom k l).get? i = some t → t.id = some (.int (k + i)) := by
  intro l
  induction l with
  | nil => intro k i t h; cases h
  | cons u us ih =>
    intro k i t h
    cases i with
    | zero =>
      simp only [renumberFrom, List.get?] at h
      cases h
      simp
    | succ j =>
      simp only [renumberFrom, List.get?] at h
      have := ih (k + 1) j t h
      rw [this]
      have : k + 1 + (j : Int) = k + ((j : Int) + 1) := by ring
      simp [this]

lemma renumberFrom_mem :
    ∀ (l : List PyDict) (k : Int) (t : PyDict), t ∈ renumberFrom k l →
      ∃ u ∈ l, ∃ n : Int, k ≤ n ∧ t = { u with id := some (.int n) } := by
  intro l
  induction l with
  | nil => intro k t h; cases h
  | cons u us ih =>
    intro k t h
    rcases List.mem_cons.mp h with h | h
    · exact ⟨u, List.mem_cons_self u us, k, le_refl k, h⟩
    · obtain ⟨u', hu', n, hn, ht⟩ := ih (k + 1) t h
      exact ⟨u', List.mem_cons_of_mem u hu', n, by omega, ht⟩

lemma idsOf_cons_some {t : PyDict} {ts : List PyDict} {v : PyVal} (h : t.id = some v) :
    idsOf (t :: ts) = v :: idsOf ts := by
  simp [idsOf, List.filterMap_cons, h]

lemma idsOf_mem {l : List PyDict} {v : PyVal} (h : v ∈ idsOf l) :
    ∃ t ∈ l, t.id = some v := by
  obtain ⟨t, ht, hid⟩ := List.mem_filterMap.mp h
  exact ⟨t, ht, hid⟩

lemma renumberFrom_nodupIds : ∀ (l : List PyDict) (k : Int), NodupIds (renumberFrom k l) := by
  intro l
  induction l with
  | nil => intro k; simp [NodupIds, renumberFrom, idsOf]
  | cons u us ih =>
    intro k
    have hcons : idsOf (renumberFrom k (u :: us)) =
        PyVal.int k :: idsOf (renumberFrom (k + 1) us) := by
      simp only [renumberFrom]
      exact idsOf_cons_some rfl
    rw [NodupIds, hcons]
    refine List.nodup_cons.mpr ⟨?_, ih (k + 1)⟩
    intro hmem
    obtain ⟨t, ht, hid⟩ := idsOf_mem hmem
    obtain ⟨u', _, n, hn, ht'⟩ := renumberFrom_mem us (k + 1) t ht
    rw [ht'] at hid
    simp at hid
    omega

end TaskTracker

namespace TaskTracker

lemma load_tasks_wf {now : String} {fs : FileState} {r : LoadOut}
    (h : load_tasks now fs = .ok r) :
    ∀ t ∈ r.tasks, t.id.isSome = true ∧ t.description.isSome = true ∧
      isLegacyDict t = false := by
  cases fs with
  | absent => cases h; simp
  | unparseable => cases h; simp
  | nonList => cases h; simp
  | list data =>
    simp only [load_tasks] at h
    rcases hM : migrateList now data with p | e <;> rw [hM] at h
    case raised => cases h
    obtain ⟨m, nl⟩ := p
    obtain ⟨_, hwf, _⟩ := migrateList_ok_inv hM
    cases m with
    | false =>
      simp only [if_neg (by simp : ¬(false = true))] at h
      cases h
      exact hwf
    | true =>
      simp only [if_pos rfl] at h
      cases h
      intro t ht
      obtain ⟨u, hu, n, _, ht'⟩ := renumberFrom_mem nl 1 t ht
      obtain ⟨_, hdesc, hleg⟩ := hwf u hu
      subst ht'
      refine ⟨rfl, hdesc, ?_⟩
      simpa [isLegacyDict] using hleg

lemma migrateList_passthrough {now : String} :
    ∀ {l : List PyDict},
      (∀ t ∈ l, isLegacyDict t = false ∧ t.id.isSome = true ∧
        t.description.isSome = true) →
      migrateList now (l.map Item.dict) = .ok (false, l) := by
  intro l
  induction l with
  | nil => intro _; rfl
  | cons t ts ih =>
    intro hall
    obtain ⟨hleg, hid, hdesc⟩ := hall t (List.mem_cons_self t ts)
    have hrest := ih fun u hu => hall u (List.mem_cons_of_mem t hu)
    have hitem : migrateItem now (.dict t) = .ok (some (false, t)) := by
      simp only [migrateItem, hleg, if_neg (by simp : ¬(false = true))]
      rw [if_pos (by simp [isCurrentDict, hid, hdesc])]
    simp only [List.map_cons, migrateList, hitem, hrest]
    rfl

lemma migrateList_no_raise {now : String} :
    ∀ {data : List Item},
      (∀ d ∈ dictsOf data, isLegacyDict d = true → isStrVal d.task = true) →
      ∃ p, migrateList now data = .ok p := by
  intro data
  induction data with
  | nil => intro _; exact ⟨(false, []), rfl⟩
  | cons item rest ih =>
    intro hall
    have hrest : ∀ d ∈ dictsOf rest, isLegacyDict d = true → isStrVal d.task = true := by
      intro d hd
      refine hall d ?_
      cases item <;> simp only [dictsOf, List.filterMap_cons] at hd ⊢ <;>
        first
          | exact List.mem_cons_of_mem _ hd
          | exact hd
    obtain ⟨⟨m, l⟩, hR⟩ := ih hrest
    have hitem : ∃ step, migrateItem now item = .ok step := by
      cases item with
      | nondict v => exact ⟨none, rfl⟩
      | dict d =>
        by_cases hL : isLegacyDict d
        · have hstr : isStrVal d.task = true := by
            refine hall d ?_ hL
            simp [dictsOf, List.filterMap_cons]
          have : ∃ s, d.task = some (.str s) := by
            rcases hv : d.task with _ | v
            · rw [hv] at hstr
              simp [isStrVal] at hstr
            · cases v with
              | str s => exact ⟨s, rfl⟩
              | int n => rw [hv] at hstr; simp [isStrVal] at hstr
              | bool b => rw [hv] at hstr; simp [isStrVal] at hstr
              | null => rw [hv] at hstr; simp [isStrVal] at hstr
          obtain ⟨s, hs⟩ := this
          refine ⟨some (true,
            { id := some .null
              description := some (.str (pyStripStr s))
              status := some (.str (if pyTruthy d.done then "done" else "todo"))
              createdAt := some (d.createdAt.getD (.str now))
              updatedAt := some (d.updatedAt.getD (.str now)) }), ?_⟩
          simp only [migrateItem, if_pos hL, hs, Option.getD_some, pyStrip]
        · by_cases hC : isCurrentDict d
          · exact ⟨some (false, d), by simp only [migrateItem, if_neg hL, if_pos hC]⟩
          · exact ⟨none, by simp only [migrateItem, if_neg hL, if_neg hC]⟩
    obtain ⟨step, hI⟩ := hitem
    cases step with
    | none => exact ⟨(m, l), by simp only [migrateList, hI, hR]⟩
    | some bd =>
      obtain ⟨b, d⟩ := bd
      exact ⟨(b || m, d :: l), by simp only [migrateList, hI, hR]⟩

end TaskTracker

namespace TaskTracker

lemma idNums_mem :
    ∀ {tasks : List PyDict} {xs : List Int}, idNums tasks = some xs →
      ∀ t ∈ tasks, ∃ n, idAsInt t.id = some n ∧ n ∈ xs := by
  intro tasks
  induction tasks with
  | nil => intro xs _ t ht; cases ht
  | cons u us ih =>
    intro xs h t ht
    simp only [idNums] at h
    rcases hu : idAsInt u.id with _ | x <;> rw [hu] at h
    · cases h
    rcases hus : idNums us with _ | ys <;> rw [hus] at h
    · cases h
    cases h
    rcases List.mem_cons.mp ht with ht | ht
    · exact ⟨x, ht ▸ hu, List.mem_cons_self x ys⟩
    · obtain ⟨n, hn, hmem⟩ := ih hus t ht
      exact ⟨n, hn, List.mem_cons_of_mem x hmem⟩

lemma idNums_all_some :
    ∀ {tasks : List PyDict},
      (∀ t ∈ tasks, (idAsInt t.id).isSome = true) → ∃ xs, idNums tasks = some xs := by
  intro tasks
  induction tasks with
  | nil => intro _; exact ⟨[], rfl⟩
  | cons u us ih =>
    intro hall
    have hu := hall u (List.mem_cons_self u us)
    obtain ⟨xs, hxs⟩ := ih fun t ht => hall t (List.mem_cons_of_mem u ht)
    rcases hv : idAsInt u.id with _ | x
    · rw [hv] at hu
      cases hu
    · exact ⟨x :: xs, by simp only [idNums, hv, hxs]⟩

lemma get_next_id_eq {tasks : List PyDict} {x : Int} {xs : List Int}
    (h : idNums tasks = some (x :: xs)) :
    get_next_id tasks = xs.foldl max x + 1 := by
  cases tasks with
  | nil => cases h
  | cons u us => simp only [get_next_id, h]

lemma get_next_id_gt {tasks : List PyDict} {x : Int} {xs : List Int}
    (h : idNums tasks = some (x :: xs)) :
    ∀ t ∈ tasks, ∀ n : Int, idAsInt t.id = some n → n < get_next_id tasks := by
  intro t ht n hn
  rw [get_next_id_eq h]
  obtain ⟨n', hn', hmem⟩ := idNums_mem h t ht
  rw [hn] at hn'
  cases hn'
  have : n ≤ xs.foldl max x := by
    rcases List.mem_cons.mp hmem with hm | hm
    · exact foldl_max_le (Or.inl (le_of_eq hm))
    · exact foldl_max_le (Or.inr hm)
  omega

lemma get_next_id_not_used {tasks : List PyDict}
    (hall : ∀ t ∈ tasks, (idAsInt t.id).isSome = true) :
    PyVal.int (get_next_id tasks) ∉ idsOf tasks := by
  intro hmem
  obtain ⟨t, ht, hid⟩ := idsOf_mem hmem
  have hsome : idAsInt t.id = some (get_next_id tasks) := by
    rw [hid]
    rfl
  obtain ⟨xs, hxs⟩ := idNums_all_some hall
  cases tasks with
  | nil => cases ht
  | cons u us =>
    cases xs with
    | nil =>
      simp only [idNums] at hxs
      rcases hu : idAsInt u.id with _ | y <;> rw [hu] at hxs
      · cases hxs
      rcases hus : idNums us with _ | ys <;> rw [hus] at hxs
      · cases hxs
      cases hxs
    | cons x xs' =>
      exact absurd rfl (ne_of_lt (get_next_id_gt hxs t ht _ hsome))

end TaskTracker

namespace TaskTracker

/-- C1: the claim says `filterByStatus` returns the matching sub-sequence in
original order.  The code instead builds a Python *set* of dicts
(`{t for t in tasks if t.get("status") == filter_status}`, line 160), and
dicts are unhashable, so the first matching task raises `TypeError`: with a
valid filter `"done"` and one matching task the call raises instead of
returning the one-element sub-sequence.  The error-free paths agree with
the claim: no match yields an empty display (not an error) and an invalid
filter is rejected. -/
theorem C1_filter_by_status_raises_on_match :
    show_tasks [taskDoneW, taskTodoW] (some "done") = .raised .typeError ∧
    show_tasks [taskTodoW] (some "done") = .ok .noTasks ∧
    show_tasks [taskDoneW, taskTodoW] (some "blah") = .ok .invalidFilter := by
  decide

/-- C2: `get_next_id` returns 1 on an empty collection; when the generator
`task.get("id", 0)` yields the integer sequence `x :: xs` (records lacking
an id contribute 0), it returns their maximum plus one, which is strictly
greater than every id present in the collection. -/
theorem C2_get_next_id_spec :
    get_next_id [] = 1 ∧
    ∀ (tasks : List PyDict) (x : Int) (xs : List Int),
      idNums tasks = some (x :: xs) →
      get_next_id tasks = xs.foldl max x + 1 ∧
      ∀ t ∈ tasks, ∀ n : Int, t.id = some (.int n) → n < get_next_id tasks := by
  refine ⟨rfl, ?_⟩
  intro tasks x xs h
  refine ⟨get_next_id_eq h, ?_⟩
  intro t ht n hn
  refine get_next_id_gt h t ht n ?_
  rw [hn]
  rfl

/-- Witness for C2: on the collection with ids 1 and 3 the generator yields
`[1, 3]` and the next id is `max 1 3 + 1 = 4`; a record with no id is
treated as 0, so `[no-id record, id 3]` also yields 4. -/
theorem C2_get_next_id_spec_witness :
    idNums gapTasksW = some (1 :: [3]) ∧
    (get_next_id gapTasksW = [3].foldl max 1 + 1 ∧
      ∀ t ∈ gapTasksW, ∀ n : Int, t.id = some (.int n) → n < get_next_id gapTasksW) ∧
    get_next_id gapTasksW = 4 ∧
    get_next_id [taskNoIdW, taskId3W] = 4 :=
  ⟨by decide, C2_get_next_id_spec.2 gapTasksW 1 [3] (by decide), by decide, by decide⟩

end TaskTracker

namespace TaskTracker

/-- C3: when loading a parsed list succeeds and at least one element passes
the legacy test, the result is reported as migrated, the migrated collection
is saved during the load, and every record of the returned collection —
converted and previously-current alike — carries the sequential id `i + 1`
at position `i`; when no element is legacy, nothing is reported, nothing is
saved, and every returned record is an element of the input, unchanged. -/
theorem C3_migration_renumbers_and_saves :
    ∀ (now : String) (data : List Item) (r : LoadOut),
      load_tasks now (.list data) = .ok r →
      (data.any isLegacyItem = true →
        r.migrated = true ∧ r.saved = some r.tasks ∧
        ∀ (i : Nat) (t : PyDict), r.tasks.get? i = some t →
          t.id = some (.int ((i : Int) + 1))) ∧
      (data.any isLegacyItem = false →
        r.migrated = false ∧ r.saved = none ∧ ∀ t ∈ r.tasks, Item.dict t ∈ data) := by
  intro now data r h
  simp only [load_tasks] at h
  rcases hM : migrateList now data with p | e <;> rw [hM] at h
  case raised => cases h
  obtain ⟨m, nl⟩ := p
  obtain ⟨hflag, _, hcur⟩ := migrateList_ok_inv hM
  constructor
  · intro hany
    rw [← hflag] at hany
    subst hany
    simp only [if_pos rfl] at h
    cases h
    refine ⟨rfl, rfl, ?_⟩
    intro i t hget
    have := renumberFrom_get? nl 1 i t hget
    rw [this]
    have harith : (1 : Int) + (i : Int) = (i : Int) + 1 := by ring
    rw [harith]
  · intro hnone
    rw [← hflag] at hnone
    subst hnone
    simp only [if_neg (by simp : ¬(false = true))] at h
    cases h
    refine ⟨rfl, rfl, ?_⟩
    intro t ht
    rw [hcur rfl] at ht
    exact currentOnly_mem_dict ht

/-- Witness for C3: a file with one legacy record followed by a
current-format record with id 7 loads with a migration; both records are
renumbered 1, 2 and the renumbered collection is saved. -/
theorem C3_migration_renumbers_and_saves_witness :
    (load_tasks "T" (.list mixedDataW) = .ok mixedLoadOutW) ∧
    ((mixedDataW.any isLegacyItem = true →
      mixedLoadOutW.migrated = true ∧ mixedLoadOutW.saved = some mixedLoadOutW.tasks ∧
      ∀ (i : Nat) (t : PyDict), mixedLoadOutW.tasks.get? i = some t →
        t.id = some (.int ((i : Int) + 1))) ∧
    (mixedDataW.any isLegacyItem = false →
      mixedLoadOutW.migrated = false ∧ mixedLoadOutW.saved = none ∧
      ∀ t ∈ mixedLoadOutW.tasks, Item.dict t ∈ mixedDataW)) :=
  ⟨by decide, C3_migration_renumbers_and_saves "T" mixedDataW mixedLoadOutW (by decide)⟩

/-- C4: classification of one array element: a dict with string `task` and
boolean `done` becomes a current-format record with trimmed description,
status `done`/`todo` after the flag, and timestamps defaulting to `now`
when absent; a non-legacy dict with `id` and `description` passes through
unchanged; a non-legacy dict without them, or a non-dict element, is
dropped silently. -/
theorem C4_element_classification :
    ∀ (now : String) (d : PyDict) (s : String) (b : Bool),
      (d.task = some (.str s) → d.done = some (.bool b) →
        migrateItem now (.dict d) = .ok (some (true,
          { id := some .null
            description := some (.str (pyStripStr s))
            status := some (.str (if b then "done" else "todo"))
            createdAt := some (d.createdAt.getD (.str now))
            updatedAt := some (d.updatedAt.getD (.str now)) }))) ∧
      (isLegacyDict d = false → isCurrentDict d = true →
        migrateItem now (.dict d) = .ok (some (false, d))) ∧
      (isLegacyDict d = false → isCurrentDict d = false →
        migrateItem now (.dict d) = .ok none) ∧
      (∀ v, migrateItem now (.nondict v) = .ok none) := by
  intro now d s b
  refine ⟨?_, ?_, ?_, fun v => rfl⟩
  · intro ht hd
    have hL : isLegacyDict d = true := by simp [isLegacyDict, ht, hd]
    simp only [migrateItem, if_pos hL, ht, Option.getD_some, pyStrip]
    have hb : pyTruthy d.done = b := by simp [pyTruthy, hd]
    rw [hb]
  · intro hL hC
    simp only [migrateItem, hL, if_neg (by simp : ¬(false = true)), if_pos hC]
  · intro hL hC
    simp only [migrateItem, hL, hC, if_neg (by simp : ¬(false = true))]

/-- Witness for C4: the legacy record `{"task": " buy milk ", "done": true}`
is converted to a record with description `"buy milk"`, status `"done"`,
`id = None`, and both timestamps equal to the current timestamp. -/
theorem C4_element_classification_witness :
    (legacyDictW.task = some (.str " buy milk ")) ∧
    (legacyDictW.done = some (.bool true)) ∧
    migrateItem "T" (.dict legacyDictW) = .ok (some (true,
      { id := some .null
        description := some (.str "buy milk")
        status := some (.str "done")
        createdAt := some (.str "T")
        updatedAt := some (.str "T") })) :=
  ⟨rfl, rfl, by
    have h := (C4_element_classification "T" legacyDictW " buy milk " true).1 rfl rfl
    simpa using h⟩

end TaskTracker

namespace TaskTracker

/-- C5 counterexample: an exception CAN propagate out of `load()`.  On the
parseable list `[{"task": 1, "done": true}]` the element passes the legacy
test, and `item.get("task", "").strip()` is called on the integer 1, which
raises `AttributeError`; nothing in `load_tasks` catches it. -/
theorem C5_load_raises_counterexample :
    load_tasks "T" (.list [Item.dict badLegacyDictW]) = .raised .attributeError := by
  decide

/-- C5 amended: an absent file, unparseable content, and content parsed to a
non-sequence each yield the empty collection without an exception; and a
parsed list loads without an exception provided every legacy-shaped element
carries a string `task` value — but a legacy-shaped element whose `task`
value is not a string makes `load` raise (see the counterexample). -/
theorem C5_load_error_recovery_amended :
    ∀ (now : String) (data : List Item),
      load_tasks now .absent = .ok ⟨false, [], none⟩ ∧
      load_tasks now .unparseable = .ok ⟨false, [], none⟩ ∧
      load_tasks now .nonList = .ok ⟨false, [], none⟩ ∧
      ((∀ d ∈ dictsOf data, isLegacyDict d = true → isStrVal d.task = true) →
        ∃ r, load_tasks now (.list data) = .ok r) := by
  intro now data
  refine ⟨rfl, rfl, rfl, ?_⟩
  intro hall
  obtain ⟨⟨m, l⟩, hM⟩ := @migrateList_no_raise now data hall
  cases m with
  | true =>
    exact ⟨⟨true, renumber l, some (renumber l)⟩, by simp only [load_tasks, hM]; rfl⟩
  | false =>
    exact ⟨⟨false, l, none⟩, by simp only [load_tasks, hM]; rfl⟩

/-- Witness for C5 amended: the legacy file `[{"task": " buy milk ",
"done": true}]` has a string task value, so it loads without raising. -/
theorem C5_load_error_recovery_amended_witness :
    (∀ d ∈ dictsOf [Item.dict legacyDictW], isLegacyDict d = true →
      isStrVal d.task = true) ∧
    ∃ r, load_tasks "T" (.list [Item.dict legacyDictW]) = .ok r :=
  ⟨by decide, (C5_load_error_recovery_amended "T" [Item.dict legacyDictW]).2.2.2 (by decide)⟩

/-- C6: `mark_task` with an absent id reports not-found and leaves the
collection untouched; with a present id and a status outside
`VALID_STATUSES` it reports the invalid status and leaves the whole
collection (target record included) untouched; with a valid status it
replaces the target's `status` and refreshes its `updatedAt`, every record
of the result being either the original or the original with exactly that
update applied. -/
theorem C6_mark_task_spec :
    ∀ (tasks : List PyDict) (task_id : Int) (status now : String),
      (find_task_by_id tasks task_id = none →
        mark_task tasks task_id status now = .ok (.notFound, tasks)) ∧
      (∀ t, find_task_by_id tasks task_id = some t →
        VALID_STATUSES.contains status = false →
        mark_task tasks task_id status now = .ok (.invalidStatus, tasks)) ∧
      (∀ t, find_task_by_id tasks task_id = some t →
        t.status.isSome = true → VALID_STATUSES.contains status = true →
        mark_task tasks task_id status now =
          .ok (.changed, setFirst (fun u => pyEqInt u.id task_id)
            (markUpd status now) tasks) ∧
        ∀ i : Nat,
          (setFirst (fun u => pyEqInt u.id task_id) (markUpd status now) tasks).get? i =
              tasks.get? i ∨
            (setFirst (fun u => pyEqInt u.id task_id) (markUpd status now) tasks).get? i =
              (tasks.get? i).map (markUpd status now)) := by
  intro tasks task_id status now
  refine ⟨?_, ?_, ?_⟩
  · intro hfind
    simp only [mark_task, hfind]
  · intro t hfind hc
    have hc' : status ∉ VALID_STATUSES := by simpa using hc
    simp [mark_task, hfind, hc']
  · intro t hfind hst hc
    refine ⟨?_, fun i => setFirst_get?_or _ _ tasks i⟩
    have hc' : status ∈ VALID_STATUSES := by simpa using hc
    simp [mark_task, hfind, hc', hst]

/-- Witness for C6: on a one-task collection with id 1, marking id 1 with
the invalid status `"urgent"` reports the invalid status and returns the
collection unchanged. -/
theorem C6_mark_task_spec_witness :
    (find_task_by_id [taskDoneW] 1 = some taskDoneW) ∧
    (VALID_STATUSES.contains "urgent" = false) ∧
    mark_task [taskDoneW] 1 "urgent" "T2" = .ok (.invalidStatus, [taskDoneW]) :=
  ⟨by decide, by decide,
    (C6_mark_task_spec [taskDoneW] 1 "urgent" "T2").2.1 taskDoneW (by decide) (by decide)⟩

/-- C8: `update_task` with an absent id reports not-found and changes
nothing; with a present (fully-keyed) record and an input that is empty
after trimming it cancels and returns the collection — and in particular
the target record — entirely unchanged. -/
theorem C8_update_empty_rejected :
    ∀ (tasks : List PyDict) (task_id : Int) (raw now : String),
      (find_task_by_id tasks task_id = none →
        update_task tasks task_id raw now = .ok (.notFound, tasks)) ∧
      (∀ t, find_task_by_id tasks task_id = some t → print_task_ok t = true →
        pyStripStr raw = "" →
        update_task tasks task_id raw now = .ok (.cancelled, tasks)) := by
  intro tasks task_id raw now
  refine ⟨?_, ?_⟩
  · intro hfind
    simp only [update_task, hfind]
  · intro t hfind hpr hraw
    simp [update_task, hfind, hpr, hraw]

/-- Witness for C8: updating the task with id 1 with the all-whitespace
input `"   "` cancels and leaves the collection unchanged. -/
theorem C8_update_empty_rejected_witness :
    (find_task_by_id [taskDoneW] 1 = some taskDoneW) ∧
    (print_task_ok taskDoneW = true) ∧
    (pyStripStr "   " = "") ∧
    update_task [taskDoneW] 1 "   " "T3" = .ok (.cancelled, [taskDoneW]) :=
  ⟨by decide, by decide, by decide,
    (C8_update_empty_rejected [taskDoneW] 1 "   " "T3").2 taskDoneW
      (by decide) (by decide) (by decide)⟩

end TaskTracker

namespace TaskTracker

/-- C7: a second load after a load is a fixed point: whatever `load_tasks`
returned (its output records all being current-format and not
legacy-shaped), feeding that collection back in as the file content loads
with no migration detected, no save, and the identical collection. -/
theorem C7_second_load_fixed_point :
    ∀ (now now2 : String) (fs : FileState) (r : LoadOut),
      load_tasks now fs = .ok r →
      load_tasks now2 (.list (r.tasks.map Item.dict)) = .ok ⟨false, r.tasks, none⟩ := by
  intro now now2 fs r h
  have hwf := load_tasks_wf h
  have hpass : migrateList now2 (r.tasks.map Item.dict) = .ok (false, r.tasks) := by
    refine migrateList_passthrough ?_
    intro t ht
    obtain ⟨hid, hdesc, hleg⟩ := hwf t ht
    exact ⟨hleg, hid, hdesc⟩
  simp only [load_tasks, hpass]
  rfl

/-- Witness for C7: re-loading the migrated output of the mixed legacy file
yields the identical collection with no migration and no save. -/
theorem C7_second_load_fixed_point_witness :
    (load_tasks "T" (.list mixedDataW) = .ok mixedLoadOutW) ∧
    load_tasks "T2" (.list (mixedLoadOutW.tasks.map Item.dict)) =
      .ok ⟨false, mixedLoadOutW.tasks, none⟩ :=
  ⟨by decide, C7_second_load_fixed_point "T" "T2" (.list mixedDataW) mixedLoadOutW (by decide)⟩

/-- C10: every record returned by `load_tasks` carries both an `"id"` key
and a `"description"` key: current-format elements were required to have
both to be kept, converted legacy records were given both, everything else
was dropped. -/
theorem C10_loaded_records_have_id_and_description :
    ∀ (now : String) (fs : FileState) (r : LoadOut),
      load_tasks now fs = .ok r →
      ∀ t ∈ r.tasks, t.id.isSome = true ∧ t.description.isSome = true := by
  intro now fs r h t ht
  obtain ⟨hid, hdesc, _⟩ := load_tasks_wf h t ht
  exact ⟨hid, hdesc⟩

/-- Witness for C10: both records loaded from the mixed legacy file carry
`"id"` and `"description"` keys. -/
theorem C10_loaded_records_have_id_and_description_witness :
    (load_tasks "T" (.list mixedDataW) = .ok mixedLoadOutW) ∧
    ∀ t ∈ mixedLoadOutW.tasks, t.id.isSome = true ∧ t.description.isSome = true :=
  ⟨by decide,
    C10_loaded_records_have_id_and_description "T" (.list mixedDataW) mixedLoadOutW (by decide)⟩

/-- C9 counterexample: an id IS reused after deletion.  On the collection
with ids 1 and 2, deleting the task with id 2 and then adding a new task
assigns the new task the id 2 — the id the deleted record carried. -/
theorem C9_id_reuse_counterexample :
    taskTodoW.id = some (.int 2) ∧
    delete_task [taskDoneW, taskTodoW] 2 = .ok (.deleted, [taskDoneW]) ∧
    get_next_id [taskDoneW] = 2 ∧
    (add_task_one [taskDoneW] "next thing" "T4").map (fun t => t.id) =
      [some (.int 1), some (.int 2)] := by
  decide

end TaskTracker

namespace TaskTracker

/-- C9 amended: the ids present in the collection stay pairwise distinct
under every operation — load renumbers to 1..n on migration and returns a
sub-sequence of the file's dicts otherwise; adding appends
`get_next_id`, which (when every present id takes part in the integer
`max`) is strictly greater than every present id; description and status
updates keep every id; deletion removes a record — but an id CAN be reused
after deletion (see the counterexample): `get_next_id` is computed from the
current maximum, so deleting the highest-id record frees its id for the
next creation. -/
theorem C9_ids_stay_distinct_amended :
    (∀ (now : String) (data : List Item) (r : LoadOut),
      load_tasks now (.list data) = .ok r →
      NodupIds (dictsOf data) → NodupIds r.tasks) ∧
    (∀ (tasks : List PyDict) (raw now : String),
      (∀ t ∈ tasks, (idAsInt t.id).isSome = true) →
      NodupIds tasks → NodupIds (add_task_one tasks raw now)) ∧
    (∀ (tasks : List PyDict) (task_id : Int) (raw now : String)
      (res : UpdateResult) (l' : List PyDict),
      update_task tasks task_id raw now = .ok (res, l') → idsOf l' = idsOf tasks) ∧
    (∀ (tasks : List PyDict) (task_id : Int) (status now : String)
      (res : MarkResult) (l' : List PyDict),
      mark_task tasks task_id status now = .ok (res, l') → idsOf l' = idsOf tasks) ∧
    (∀ (tasks : List PyDict) (task_id : Int) (res : DeleteResult) (l' : List PyDict),
      delete_task tasks task_id = .ok (res, l') →
      NodupIds tasks → NodupIds l') := by
  refine ⟨?_, ?_, ?_, ?_, ?_⟩
  · -- load
    intro now data r h hnd
    simp only [load_tasks] at h
    rcases hM : migrateList now data with p | e <;> rw [hM] at h
    case raised => cases h
    obtain ⟨m, nl⟩ := p
    obtain ⟨_, _, hcur⟩ := migrateList_ok_inv hM
    cases m with
    | true =>
      simp only [if_pos rfl] at h
      cases h
      exact renumberFrom_nodupIds nl 1
    | false =>
      simp only [if_neg (by simp : ¬(false = true))] at h
      cases h
      simp only [NodupIds, idsOf] at hnd ⊢
      rw [hcur rfl]
      have hsub := List.Sublist.filterMap (fun t : PyDict => t.id) (currentOnly_sublist data)
      simp only [currentOnly] at hsub ⊢
      exact hsub.nodup hnd
  · -- add
    intro tasks raw now hall hnd
    simp only [add_task_one]
    by_cases hempty : pyStripStr raw = ""
    · simp only [hempty, if_pos rfl]
      exact hnd
    · rw [if_neg hempty]
      rw [NodupIds, idsOf, List.filterMap_append]
      refine List.Nodup.append hnd (by simp) ?_
      intro v hv hv'
      simp only [List.filterMap_cons, List.filterMap_nil] at hv'
      simp only [List.mem_singleton] at hv'
      subst hv'
      exact get_next_id_not_used hall hv
  · -- update description
    intro tasks task_id raw now res l' h
    rcases hfind : find_task_by_id tasks task_id with _ | t
    · simp [update_task, hfind] at h
      obtain ⟨rfl, rfl⟩ := h
      rfl
    · by_cases hpr : print_task_ok t = true
      · by_cases hraw : pyStripStr raw = ""
        · simp [update_task, hfind, hpr, hraw] at h
          obtain ⟨rfl, rfl⟩ := h
          rfl
        · simp [update_task, hfind, hpr, hraw] at h
          obtain ⟨rfl, rfl⟩ := h
          exact setFirst_idsOf _ (updUpd (pyStripStr raw) now) (fun u => rfl) tasks
      · simp [update_task, hfind, hpr] at h
  · -- mark status
    intro tasks task_id status now res l' h
    rcases hfind : find_task_by_id tasks task_id with _ | t
    · simp [mark_task, hfind] at h
      obtain ⟨rfl, rfl⟩ := h
      rfl
    · by_cases hc : status ∈ VALID_STATUSES
      · by_cases hst : t.status.isSome = true
        · simp [mark_task, hfind, hc, hst] at h
          obtain ⟨rfl, rfl⟩ := h
          exact setFirst_idsOf _ (markUpd status now) (fun u => rfl) tasks
        · simp [mark_task, hfind, hc, hst] at h
      · simp [mark_task, hfind, hc] at h
        obtain ⟨rfl, rfl⟩ := h
        rfl
  · -- delete
    intro tasks task_id res l' h hnd
    rcases hfind : find_task_by_id tasks task_id with _ | t
    · simp [delete_task, hfind] at h
      obtain ⟨rfl, rfl⟩ := h
      exact hnd
    · by_cases hpr : print_task_ok t = true
      · simp [delete_task, hfind, hpr] at h
        obtain ⟨rfl, rfl⟩ := h
        simp only [NodupIds, idsOf] at hnd ⊢
        have hsub := List.Sublist.filterMap (fun u : PyDict => u.id)
          (removeFirst_sublist (fun u => u = t) tasks)
        exact hsub.nodup hnd
      · simp [delete_task, hfind, hpr] at h

/-- Witness for C9 amended (deletion part): deleting id 2 from the two-task
collection preserves distinctness of the remaining ids. -/
theorem C9_ids_stay_distinct_amended_witness :
    (delete_task [taskDoneW, taskTodoW] 2 = .ok (.deleted, [taskDoneW])) ∧
    NodupIds [taskDoneW, taskTodoW] ∧ NodupIds [taskDoneW] :=
  ⟨by decide, by decide,
    C9_ids_stay_distinct_amended.2.2.2.2 [taskDoneW, taskTodoW] 2 .deleted [taskDoneW]
      (by decide) (by decide)⟩

end TaskTracker
